import Mathlib

/-!
Verification of the build-configuration resolver of `aws-rdsportal-frontend`
(`vite.config.ts`).

The source file is a single declarative Vite configuration:

  plugins: [vue()]
  build.outDir:      path.resolve(__dirname, '../aws-rdsportal-backend/app/frontend')
  build.emptyOutDir: true
  server.port:       8080
  server.host:       true

The only computation is Node's `path.resolve` applied to the (absolute)
directory of the configuration file and a fixed relative segment.  We embed
POSIX path resolution (split on '/', drop empty and '.' segments, let '..'
pop one segment, '..' above the root is ignored, join back with '/'), which
is exactly what Node's `path.resolve`/`path.normalize` do for the string
arguments appearing here, and the configuration object itself as a record.
-/

/-- Opaque plugin descriptor; the source registers exactly one, `vue()`. -/
inductive PluginDescriptor where
  | vue
  deriving DecidableEq, Repr

/-- The `build` block of the Vite user config (`outDir`, `emptyOutDir`). -/
structure BuildOptions where
  outDir : String
  emptyOutDir : Bool
  deriving DecidableEq, Repr

/-- The `server` block of the Vite user config (`port`, `host`). -/
structure ServerOptions where
  port : Nat
  host : Bool
  deriving DecidableEq, Repr

/-- The object literal passed to `defineConfig` in `vite.config.ts`. -/
structure UserConfig where
  plugins : List PluginDescriptor
  build : BuildOptions
  server : ServerOptions
  deriving DecidableEq, Repr

/-- Split a character list into segments at every `'/'` character;
`acc` holds the (reversed) characters of the segment currently being read.
This is the segmentation underlying Node's `path.normalize`. -/
def splitSegsAux : List Char → List Char → List (List Char)
  | [], acc => [acc.reverse]
  | c :: cs, acc =>
    if c = '/' then acc.reverse :: splitSegsAux cs []
    else splitSegsAux cs (c :: acc)

/-- Normalization step of POSIX path resolution on a segment list: empty
segments and `.` are dropped, `..` pops the previous segment (and is ignored
above the root of an absolute path, matching Node), other segments are kept.
`acc` is the stack of kept segments, in reverse order. -/
def normStep : List (List Char) → List (List Char) → List (List Char)
  | acc, [] => acc.reverse
  | acc, seg :: rest =>
    if seg = [] ∨ seg = ['.'] then normStep acc rest
    else if seg = ['.', '.'] then normStep acc.tail rest
    else normStep (seg :: acc) rest

/-- Join segments with `'/'` separators (no leading slash). -/
def joinSegs : List (List Char) → List Char
  | [] => []
  | [s] => s
  | s :: rest => s ++ '/' :: joinSegs rest

/-- Render a segment list as an absolute path string: a leading `'/'`
followed by the segments joined with `'/'`. -/
def renderAbs (segs : List (List Char)) : String :=
  ⟨'/' :: joinSegs segs⟩

/-- Normalize a slash-separated path string to a canonical absolute path,
as Node's `path.resolve` does after concatenating its arguments (the
arguments reaching this point always start from an absolute one). -/
def normalizeAbs (s : String) : String :=
  renderAbs (normStep [] (splitSegsAux s.data []))

/-- A POSIX path string is absolute iff it starts with `'/'`. -/
def isAbsolute (s : String) : Bool :=
  match s.data with
  | '/' :: _ => true
  | _ => false

/-- Model of Node's `path.resolve(base, rel)` as called in the source:
arguments are processed right to left until an absolute one is found, the
process working directory `cwd` (always absolute in Node) is used as final
fallback, and the concatenation is normalized.  Node's `path.resolve` throws
only when handed a non-string argument, which cannot happen at this call
site, so the model is total. -/
def pathResolve (cwd base rel : String) : String :=
  if isAbsolute rel then normalizeAbs rel
  else if isAbsolute base then normalizeAbs (base ++ "/" ++ rel)
  else normalizeAbs (cwd ++ "/" ++ base ++ "/" ++ rel)

/-- The fixed relative segment of `vite.config.ts` line 9. -/
def relOut : String := "../aws-rdsportal-backend/app/frontend"

/-- The configuration object built by `vite.config.ts`, as a function of the
process working directory `cwd` and of `__dirname`, the absolute directory
containing the configuration file.  Every field is the source's literal;
`build.outDir` is `path.resolve(__dirname, '../aws-rdsportal-backend/app/frontend')`. -/
def viteConfig (cwd dirname : String) : UserConfig :=
  { plugins := [PluginDescriptor.vue]
  , build := { outDir := pathResolve cwd dirname relOut, emptyOutDir := true }
  , server := { port := 8080, host := true } }

/-- The spec's data model `BuildConfiguration`: the same object under the
spec's field names (`outputDirectory` is `build.outDir`, and so on). -/
structure BuildConfiguration where
  plugins : List PluginDescriptor
  outputDirectory : String
  emptyOutputBeforeBuild : Bool
  devServerPort : Nat
  devServerExposeOnNetwork : Bool
  deriving DecidableEq, Repr

/-- The spec's `resolve()` operation: loading `vite.config.ts` with working
directory `cwd` and config-file directory `dirname` yields the configuration
object, viewed through the spec's field names. -/
def resolve (cwd dirname : String) : BuildConfiguration :=
  let c := viteConfig cwd dirname
  { plugins := c.plugins
  , outputDirectory := c.build.outDir
  , emptyOutputBeforeBuild := c.build.emptyOutDir
  , devServerPort := c.server.port
  , devServerExposeOnNetwork := c.server.host }

/-- The error taxonomy named by the spec. -/
inductive PathResolutionError where
  | malformed
  deriving DecidableEq, Repr

/-- Configuration loading with its possible failure outcome made explicit.
Evaluating `vite.config.ts` runs `path.resolve` on two string literals and
builds an object literal; none of this can throw (Node's `path.resolve`
throws only on non-string arguments), and the file contains no existence
check and no error branch, so loading always succeeds. -/
def loadConfig (cwd dirname : String) : Except PathResolutionError UserConfig :=
  Except.ok (viteConfig cwd dirname)

/-- Modelled from the spec: "the normalized absolute path of
`D/../aws-rdsportal-backend/app/frontend`" (spec section 8, first property),
to be compared with the output directory the code computes. -/
def specOutputDirectory (D : String) : String :=
  normalizeAbs (D ++ "/../aws-rdsportal-backend/app/frontend")

theorem relOut_notAbs : isAbsolute relOut = false := by decide

theorem resolve_outputDirectory (cwd dirname : String)
    (h : isAbsolute dirname = true) :
    (resolve cwd dirname).outputDirectory
      = normalizeAbs (dirname ++ "/" ++ relOut) := by
  simp [resolve, viteConfig, pathResolve, relOut_notAbs, h]

theorem append_slash_relOut (D : String) :
    D ++ "/" ++ relOut = D ++ "/../aws-rdsportal-backend/app/frontend" := by
  apply String.ext
  simp [String.data_append, relOut]

/-- C1: for every directory `D` from which the configuration is loaded (so
that `cwd` and `__dirname` are both `D`), the resolved `outputDirectory` is
the normalized absolute path of `D/../aws-rdsportal-backend/app/frontend`;
in particular from `/home/user/project/aws-rdsportal-frontend` it is exactly
`/home/user/project/aws-rdsportal-backend/app/frontend`. -/
theorem c1_outputDirectory_spec :
    (∀ D : String, isAbsolute D = true →
      (resolve D D).outputDirectory = specOutputDirectory D)
    ∧ (resolve ("/home/user/project/aws-rdsportal-frontend")
          "/home/user/project/aws-rdsportal-frontend").outputDirectory
        = "/home/user/project/aws-rdsportal-backend/app/frontend" := by
  constructor
  · intro D hD
    rw [resolve_outputDirectory D D hD, append_slash_relOut]
    rfl
  · decide

/-- Witness for C1 at the spec's end-to-end scenario directory. -/
theorem c1_outputDirectory_spec_witness :
    isAbsolute ("/home/user/project/aws-rdsportal-frontend") = true
    ∧ (resolve ("/home/user/project/aws-rdsportal-frontend")
          "/home/user/project/aws-rdsportal-frontend").outputDirectory
        = specOutputDirectory ("/home/user/project/aws-rdsportal-frontend") :=
  ⟨by decide, c1_outputDirectory_spec.1 ("/home/user/project/aws-rdsportal-frontend") (by decide)⟩

/-- C3: the resolved configuration has `devServerPort = 8080` and
`devServerExposeOnNetwork = true` in every invocation context. -/
theorem c3_server_settings (cwd dirname : String) :
    (resolve cwd dirname).devServerPort = 8080
    ∧ (resolve cwd dirname).devServerExposeOnNetwork = true :=
  ⟨rfl, rfl⟩

/-- C4: the resolved configuration has `emptyOutputBeforeBuild = true` in
every invocation context. -/
theorem c4_emptyOutput (cwd dirname : String) :
    (resolve cwd dirname).emptyOutputBeforeBuild = true :=
  rfl

/-- C5: the resolved plugin list is exactly the one-element sequence holding
the Vue single-file-component plugin descriptor, in every invocation
context. -/
theorem c5_plugins (cwd dirname : String) :
    (resolve cwd dirname).plugins = [PluginDescriptor.vue]
    ∧ (resolve cwd dirname).plugins.length = 1 :=
  ⟨rfl, rfl⟩

/-- C6: `resolve()` is deterministic and idempotent: two invocations seeing
the same working directory and the same config-file directory produce equal
configuration objects. -/
theorem c6_deterministic (cwd₁ dirname₁ cwd₂ dirname₂ : String)
    (hc : cwd₁ = cwd₂) (hd : dirname₁ = dirname₂) :
    resolve cwd₁ dirname₁ = resolve cwd₂ dirname₂ := by
  rw [hc, hd]

/-- Witness for C6 at a concrete directory. -/
theorem c6_deterministic_witness :
    resolve ("/home/user/project/aws-rdsportal-frontend") "/home/user/project/aws-rdsportal-frontend"
      = resolve ("/home/user/project/aws-rdsportal-frontend") "/home/user/project/aws-rdsportal-frontend" :=
  c6_deterministic _ _ _ _ rfl rfl

/-- C9: the resolved configuration depends only on the config file's own
directory (`__dirname`), never on the process working directory: with the
same (absolute) `__dirname`, any two working directories give identical
configuration objects. -/
theorem c9_cwd_independent (cwd₁ cwd₂ dirname : String)
    (h : isAbsolute dirname = true) :
    resolve cwd₁ dirname = resolve cwd₂ dirname := by
  simp [resolve, viteConfig, pathResolve, relOut_notAbs, h]

/-- Witness for C9: two different working directories, same `__dirname`. -/
theorem c9_cwd_independent_witness :
    isAbsolute ("/home/user/project/aws-rdsportal-frontend") = true
    ∧ resolve ("/tmp") "/home/user/project/aws-rdsportal-frontend"
        = resolve ("/var/lib") "/home/user/project/aws-rdsportal-frontend" :=
  ⟨by decide, c9_cwd_independent ("/tmp") "/var/lib" "/home/user/project/aws-rdsportal-frontend" (by decide)⟩

theorem isAbsolute_normalizeAbs (s : String) :
    isAbsolute (normalizeAbs s) = true :=
  rfl

theorem isAbsolute_pathResolve (cwd base rel : String) :
    isAbsolute (pathResolve cwd base rel) = true := by
  unfold pathResolve
  split
  · exact isAbsolute_normalizeAbs _
  · split
    · exact isAbsolute_normalizeAbs _
    · exact isAbsolute_normalizeAbs _

/-- C10: `resolve()` is total and never raises: configuration loading always
succeeds (no `PathResolutionError` branch is reachable), and the computed
output directory is always an absolute path, with no filesystem existence
check involved. -/
theorem c10_total_never_raises (cwd dirname : String) :
    loadConfig cwd dirname = Except.ok (viteConfig cwd dirname)
    ∧ isAbsolute ((resolve cwd dirname).outputDirectory) = true :=
  ⟨rfl, isAbsolute_pathResolve cwd dirname relOut⟩

/-- C2 counterexample: at a concrete invocation whose assumed sibling
directory structure is nowhere guaranteed to exist, configuration loading
still succeeds — it never fails with a `PathResolutionError`, because the
code performs no filesystem check and no failing branch exists. -/
theorem c2_never_fails_counterexample :
    loadConfig ("/home/user/project/aws-rdsportal-frontend")
        "/home/user/project/aws-rdsportal-frontend"
      = Except.ok (viteConfig ("/home/user/project/aws-rdsportal-frontend")
          "/home/user/project/aws-rdsportal-frontend") :=
  rfl

/-- C2 amended: `resolve()` never fails: path resolution is a pure string
computation on the config-file directory and the fixed relative segment,
performed without consulting the filesystem, and configuration loading
always returns the configuration object — no `PathResolutionError` is ever
raised. -/
theorem c2_load_always_succeeds (cwd dirname : String) :
    loadConfig cwd dirname = Except.ok (viteConfig cwd dirname) :=
  rfl

/-- A well-formed path segment: nonempty, free of `'/'`, and not one of the
special segments `.` and `..`. -/
def wfSeg (s : List Char) : Prop :=
  s ≠ [] ∧ '/' ∉ s ∧ s ≠ ['.'] ∧ s ≠ ['.', '.']

instance (s : List Char) : Decidable (wfSeg s) := by
  unfold wfSeg; infer_instance

/-- Well-formedness of a path segment given as a string. -/
def wfSegStr (s : String) : Prop := wfSeg s.data

instance (s : String) : Decidable (wfSegStr s) := by
  unfold wfSegStr; infer_instance

/-- The absolute path whose segments are the given strings. -/
def absPath (segs : List String) : String :=
  renderAbs (segs.map String.data)

/-- The segments the fixed relative offset appends after popping one:
`aws-rdsportal-backend / app / frontend`. -/
def outTailSegs : List (List Char) :=
  ["aws-rdsportal-backend".data, "app".data, "frontend".data]

theorem splitSegsAux_append_slash (s : List Char) (h : '/' ∉ s) :
    ∀ (acc t : List Char),
      splitSegsAux (s ++ '/' :: t) acc = (acc.reverse ++ s) :: splitSegsAux t [] := by
  induction s with
  | nil => intro acc t; simp [splitSegsAux]
  | cons c cs ih =>
    intro acc t
    have hc : ¬(c = '/') := fun e => h (e ▸ List.mem_cons_self c cs)
    have hcs : '/' ∉ cs := fun m => h (List.mem_cons_of_mem _ m)
    simp [splitSegsAux, hc, ih hcs, List.append_assoc]

theorem splitSegsAux_no_slash (s : List Char) (h : '/' ∉ s) :
    ∀ acc : List Char, splitSegsAux s acc = [acc.reverse ++ s] := by
  induction s with
  | nil => intro acc; simp [splitSegsAux]
  | cons c cs ih =>
    intro acc
    have hc : ¬(c = '/') := fun e => h (e ▸ List.mem_cons_self c cs)
    have hcs : '/' ∉ cs := fun m => h (List.mem_cons_of_mem _ m)
    simp [splitSegsAux, hc, ih hcs, List.append_assoc]

theorem joinSegs_cons (s : List Char) (rest : List (List Char)) (h : rest ≠ []) :
    joinSegs (s :: rest) = s ++ '/' :: joinSegs rest := by
  cases rest with
  | nil => exact absurd rfl h
  | cons r rs => rfl

theorem splitSegsAux_joinSegs (L : List (List Char)) (hne : L ≠ [])
    (hns : ∀ s ∈ L, '/' ∉ s) (t : List Char) :
    splitSegsAux (joinSegs L ++ '/' :: t) [] = L ++ splitSegsAux t [] := by
  induction L with
  | nil => exact absurd rfl hne
  | cons s rest ih =>
    cases rest with
    | nil =>
      have := splitSegsAux_append_slash s (hns s (List.mem_cons_self s [])) [] t
      simpa [joinSegs] using this
    | cons r rs =>
      rw [joinSegs_cons s (r :: rs) (by simp)]
      have hs : '/' ∉ s := hns s (List.mem_cons_self s (r :: rs))
      have hrest : ∀ u ∈ r :: rs, '/' ∉ u :=
        fun u hu => hns u (List.mem_cons_of_mem _ hu)
      rw [List.append_assoc, List.cons_append, splitSegsAux_append_slash s hs,
        ih (by simp) hrest]
      simp

theorem normStep_wf_append (L : List (List Char)) (hwf : ∀ s ∈ L, wfSeg s) :
    ∀ (acc rest : List (List Char)),
      normStep acc (L ++ rest) = normStep (L.reverse ++ acc) rest := by
  induction L with
  | nil => intro acc rest; simp
  | cons s L' ih =>
    intro acc rest
    have hs := hwf s (List.mem_cons_self s L')
    have hL' : ∀ u ∈ L', wfSeg u := fun u hu => hwf u (List.mem_cons_of_mem _ hu)
    have h1 : ¬(s = [] ∨ s = ['.']) := by
      rintro (h | h)
      · exact hs.1 h
      · exact hs.2.2.1 h
    have h2 : ¬(s = ['.', '.']) := hs.2.2.2
    simp only [List.cons_append, normStep, h1, h2, if_false, List.reverse_cons,
      List.append_assoc, List.singleton_append]
    exact ih hL' (s :: acc) rest

theorem reverse_tail_reverse_eq_dropLast (L : List (List Char)) :
    L.reverse.tail.reverse = L.dropLast := by
  rcases L.eq_nil_or_concat with h | ⟨M, x, h⟩
  · simp [h]
  · subst h
    simp [List.concat_eq_append, List.reverse_append, List.dropLast_concat]

theorem outTailSegs_wf : ∀ s ∈ outTailSegs, wfSeg s := by decide

theorem splitSegsAux_relTail :
    splitSegsAux ("../aws-rdsportal-backend/app/frontend").data []
      = ['.', '.'] :: outTailSegs := by decide

/-- Core path computation: resolving the fixed relative segment against the
absolute directory with segments `L` pops the last segment of `L` and
descends into `aws-rdsportal-backend/app/frontend`. -/
theorem normalizeAbs_renderAbs (L : List (List Char)) (hwf : ∀ s ∈ L, wfSeg s) :
    normalizeAbs (renderAbs L ++ "/../aws-rdsportal-backend/app/frontend")
      = renderAbs (L.dropLast ++ outTailSegs) := by
  by_cases hne : L = []
  · subst hne; decide
  · have hdata : (renderAbs L ++ "/../aws-rdsportal-backend/app/frontend").data
        = '/' :: (joinSegs L ++ '/' :: ("../aws-rdsportal-backend/app/frontend").data) := by
      simp [String.data_append, renderAbs]
    have hns : ∀ s ∈ L, '/' ∉ s := fun s hs => (hwf s hs).2.1
    unfold normalizeAbs
    rw [hdata]
    show renderAbs (normStep [] (splitSegsAux ('/' :: _) [])) = _
    rw [show ∀ t, splitSegsAux ('/' :: t) [] = [] :: splitSegsAux t []
        from fun t => by simp [splitSegsAux]]
    rw [splitSegsAux_joinSegs L hne hns, splitSegsAux_relTail]
    show renderAbs (normStep [] ([] :: (L ++ (['.', '.'] :: outTailSegs)))) = _
    rw [show normStep [] ([] :: (L ++ (['.', '.'] :: outTailSegs)))
          = normStep [] (L ++ (['.', '.'] :: outTailSegs)) from by simp [normStep]]
    rw [normStep_wf_append L hwf [] (['.', '.'] :: outTailSegs)]
    rw [show ∀ acc rest, normStep acc (['.', '.'] :: rest) = normStep acc.tail rest
        from fun acc rest => by simp [normStep]]
    rw [show outTailSegs = outTailSegs ++ [] from by simp]
    rw [normStep_wf_append outTailSegs outTailSegs_wf]
    simp [normStep, List.reverse_append, reverse_tail_reverse_eq_dropLast]

theorem outDir_renderAbs (cwd : String) (L : List (List Char))
    (hwf : ∀ s ∈ L, wfSeg s) :
    (resolve cwd (renderAbs L)).outputDirectory
      = renderAbs (L.dropLast ++ outTailSegs) := by
  rw [resolve_outputDirectory cwd (renderAbs L) rfl, append_slash_relOut]
  exact normalizeAbs_renderAbs L hwf

theorem outDir_absPath (cwd : String) (L : List String)
    (hwf : ∀ s ∈ L, wfSegStr s) :
    (resolve cwd (absPath L)).outputDirectory
      = absPath (L.dropLast ++ ["aws-rdsportal-backend", "app", "frontend"]) := by
  have hwf' : ∀ s ∈ L.map String.data, wfSeg s := by
    intro s hs
    rcases List.mem_map.1 hs with ⟨t, ht, rfl⟩
    exact hwf t ht
  unfold absPath
  rw [outDir_renderAbs cwd _ hwf', List.map_append, List.map_dropLast]
  rfl

/-- C7: path resolution is prefix-preserving: two working directories with
the same relative project layout `S` under different absolute prefixes yield
output directories that are the same path `T` under those prefixes. -/
theorem c7_layout_preserving (P₁ P₂ S : List String) (hS : S ≠ [])
    (h₁ : ∀ s ∈ P₁ ++ S, wfSegStr s) (h₂ : ∀ s ∈ P₂ ++ S, wfSegStr s) :
    ∃ T : List String,
      (resolve (absPath (P₁ ++ S)) (absPath (P₁ ++ S))).outputDirectory
          = absPath (P₁ ++ T)
      ∧ (resolve (absPath (P₂ ++ S)) (absPath (P₂ ++ S))).outputDirectory
          = absPath (P₂ ++ T) := by
  refine ⟨S.dropLast ++ ["aws-rdsportal-backend", "app", "frontend"], ?_, ?_⟩
  · rw [outDir_absPath _ _ h₁, List.dropLast_append_of_ne_nil _ hS,
      List.append_assoc]
  · rw [outDir_absPath _ _ h₂, List.dropLast_append_of_ne_nil _ hS,
      List.append_assoc]

/-- Boolean test that the first character list is an initial run of the
second. -/
def listStarts : List Char → List Char → Bool
  | [], _ => true
  | _ :: _, [] => false
  | a :: as, b :: bs => a = b && listStarts as bs

/-- A path `p` is under directory `base` if it equals `base` or extends it
past a `'/'` boundary. -/
def isUnder (base p : String) : Bool :=
  p == base || listStarts (base ++ "/").data p.data

theorem listStarts_append_same (c : List Char) :
    ∀ u v, listStarts (c ++ u) (c ++ v) = listStarts u v := by
  induction c with
  | nil => intro u v; rfl
  | cons a c' ih => intro u v; simp [listStarts, ih]

theorem listStarts_slash_eq (x : List Char) (hx : '/' ∉ x) :
    ∀ (y u v : List Char), '/' ∉ y →
      listStarts (x ++ '/' :: u) (y ++ '/' :: v) = true → x = y := by
  induction x with
  | nil =>
    intro y u v hy h
    cases y with
    | nil => rfl
    | cons c y' =>
      exfalso
      simp only [List.nil_append, List.cons_append, listStarts,
        Bool.and_eq_true, decide_eq_true_eq] at h
      exact hy (by rw [h.1]; exact List.mem_cons_self c y')
  | cons a x' ih =>
    intro y u v hy h
    cases y with
    | nil =>
      exfalso
      simp only [List.nil_append, List.cons_append, listStarts,
        Bool.and_eq_true, decide_eq_true_eq] at h
      exact hx (by rw [← h.1]; exact List.mem_cons_self a x')
    | cons c y' =>
      simp only [List.cons_append, listStarts, Bool.and_eq_true,
        decide_eq_true_eq] at h
      have hx' : '/' ∉ x' := fun m => hx (List.mem_cons_of_mem _ m)
      have hy' : '/' ∉ y' := fun m => hy (List.mem_cons_of_mem _ m)
      rw [h.1, ih hx' y' u v hy' h.2]

theorem joinSegs_single (s : List Char) : joinSegs [s] = s := rfl

theorem joinSegs_append (A B : List (List Char)) (hA : A ≠ []) (hB : B ≠ []) :
    joinSegs (A ++ B) = joinSegs A ++ '/' :: joinSegs B := by
  induction A with
  | nil => exact absurd rfl hA
  | cons s A' ih =>
    cases A' with
    | nil =>
      cases B with
      | nil => exact absurd rfl hB
      | cons b B' =>
        rw [List.singleton_append, joinSegs_cons s (b :: B') (by simp),
          joinSegs_single]
    | cons t A'' =>
      rw [List.cons_append, joinSegs_cons _ _ (by simp),
        joinSegs_cons s (t :: A'') (by simp), ih (by simp), List.append_assoc]
      rfl

theorem joinSegs_outTail :
    joinSegs outTailSegs
      = "aws-rdsportal-backend".data ++ '/' :: "app/frontend".data := by
  decide

theorem slash_mem_joinSegs_outTail : '/' ∈ joinSegs outTailSegs := by decide

theorem data_sibling :
    ("/aws-rdsportal-backend/app/frontend").data = '/' :: joinSegs outTailSegs := by
  decide

theorem listStarts_seg_false (xc : List Char) (hx : '/' ∉ xc)
    (hxb : xc ≠ "aws-rdsportal-backend".data) :
    listStarts (xc ++ ['/']) (joinSegs outTailSegs) = false := by
  cases hb : listStarts (xc ++ ['/']) (joinSegs outTailSegs) with
  | false => rfl
  | true =>
    exfalso
    rw [joinSegs_outTail] at hb
    exact hxb (listStarts_slash_eq xc hx _ _ _ (by decide) hb)

theorem notUnder_core_ne_nil (Mc : List (List Char)) (hM : Mc ≠ [])
    (xc : List Char) (hx : '/' ∉ xc)
    (hxb : xc ≠ "aws-rdsportal-backend".data) :
    listStarts ((renderAbs (Mc ++ [xc]) ++ "/").data)
        ((renderAbs (Mc ++ outTailSegs)).data) = false
    ∧ renderAbs (Mc ++ outTailSegs) ≠ renderAbs (Mc ++ [xc]) := by
  have hjp : joinSegs (Mc ++ [xc]) = joinSegs Mc ++ '/' :: xc := by
    rw [joinSegs_append Mc [xc] hM (by simp), joinSegs_single]
  have hjt : joinSegs (Mc ++ outTailSegs)
      = joinSegs Mc ++ '/' :: joinSegs outTailSegs :=
    joinSegs_append Mc outTailSegs hM (by decide)
  constructor
  · have hp : (renderAbs (Mc ++ [xc]) ++ "/").data
        = ('/' :: joinSegs Mc ++ ['/']) ++ (xc ++ ['/']) := by
      simp [String.data_append, renderAbs, hjp, List.append_assoc]
    have ht : (renderAbs (Mc ++ outTailSegs)).data
        = ('/' :: joinSegs Mc ++ ['/']) ++ joinSegs outTailSegs := by
      simp [renderAbs, hjt, List.append_assoc]
    rw [hp, ht, listStarts_append_same]
    exact listStarts_seg_false xc hx hxb
  · intro h
    have hd := congrArg String.data h
    have hj : joinSegs (Mc ++ outTailSegs) = joinSegs (Mc ++ [xc]) := by
      simpa [renderAbs] using hd
    rw [hjp, hjt] at hj
    have hjx : joinSegs outTailSegs = xc := by
      injection List.append_cancel_left hj
    exact hx (hjx ▸ slash_mem_joinSegs_outTail)

theorem notUnder_core (Mc : List (List Char)) (xc : List Char)
    (hx : '/' ∉ xc) (hxb : xc ≠ "aws-rdsportal-backend".data) :
    listStarts ((renderAbs (Mc ++ [xc]) ++ "/").data)
        ((renderAbs (Mc ++ outTailSegs)).data) = false
    ∧ renderAbs (Mc ++ outTailSegs) ≠ renderAbs (Mc ++ [xc]) := by
  cases Mc with
  | nil =>
    constructor
    · have hp : (renderAbs ([] ++ [xc]) ++ "/").data = '/' :: (xc ++ ['/']) := by
        simp [String.data_append, renderAbs, joinSegs_single]
      have ht : (renderAbs ([] ++ outTailSegs)).data
          = '/' :: joinSegs outTailSegs := by
        simp [renderAbs]
      rw [hp, ht]
      simp [listStarts, listStarts_seg_false xc hx hxb]
    · intro h
      have hd := congrArg String.data h
      have hj : joinSegs outTailSegs = xc := by
        simpa [renderAbs, joinSegs_single] using hd
      exact hx (hj ▸ slash_mem_joinSegs_outTail)
  | cons m Mc' =>
    exact notUnder_core_ne_nil (m :: Mc') (by simp) xc hx hxb

theorem renderAbs_append_outTail (Mc : List (List Char)) (hM : Mc ≠ []) :
    renderAbs (Mc ++ outTailSegs)
      = renderAbs Mc ++ "/aws-rdsportal-backend/app/frontend" := by
  apply String.ext
  rw [String.data_append, data_sibling]
  show '/' :: joinSegs (Mc ++ outTailSegs)
      = ('/' :: joinSegs Mc) ++ '/' :: joinSegs outTailSegs
  rw [joinSegs_append Mc outTailSegs hM (by decide)]
  simp

/-- C8: the resolved output directory always sits inside the sibling
backend's static-asset directory (its path ends in
`aws-rdsportal-backend/app/frontend` after some prefix) and is never equal
to, or nested under, the front-end project directory itself, for any
front-end directory whose name is not itself `aws-rdsportal-backend`. -/
theorem c8_output_outside_frontend (cwd : String) (L : List String)
    (hne : L ≠ []) (hwf : ∀ s ∈ L, wfSegStr s)
    (hlast : L.getLast? ≠ some ("aws-rdsportal-backend")) :
    (∃ pre : String, (resolve cwd (absPath L)).outputDirectory
        = pre ++ "/aws-rdsportal-backend/app/frontend")
    ∧ isUnder (absPath L) ((resolve cwd (absPath L)).outputDirectory) = false := by
  rcases L.eq_nil_or_concat with h | ⟨M, x, hL⟩
  · exact absurd h hne
  rw [List.concat_eq_append] at hL
  subst hL
  have hx : wfSegStr x := hwf x (by simp)
  have hxs : '/' ∉ x.data := hx.2.1
  have hxb : x.data ≠ "aws-rdsportal-backend".data := by
    intro hd
    exact hlast (by rw [List.getLast?_concat, String.ext hd])
  have hout : (resolve cwd (absPath (M ++ [x]))).outputDirectory
      = renderAbs (M.map String.data ++ outTailSegs) := by
    rw [outDir_absPath cwd _ hwf, List.dropLast_concat]
    simp [absPath, List.map_append]
    rfl
  have hbase : absPath (M ++ [x])
      = renderAbs (M.map String.data ++ [x.data]) := by
    simp [absPath, List.map_append]
  have hcore := notUnder_core (M.map String.data) x.data hxs hxb
  constructor
  · cases M with
    | nil => exact ⟨"", by rw [hout]; decide⟩
    | cons m M' =>
      exact ⟨absPath (m :: M'),
        by rw [hout, renderAbs_append_outTail _ (by simp)]; rfl⟩
  · rw [hout, hbase]
    simp only [isUnder]
    rw [Bool.or_eq_false_iff]
    constructor
    · exact beq_eq_false_iff_ne.2 hcore.2
    · exact hcore.1

/-- Witness for C8: the spec's end-to-end front-end directory
`/home/user/project/aws-rdsportal-frontend`. -/
theorem c8_output_outside_frontend_witness :
    (["home", "user", "project", "aws-rdsportal-frontend"] : List String) ≠ []
    ∧ (∀ s ∈ (["home", "user", "project", "aws-rdsportal-frontend"] : List String), wfSegStr s)
    ∧ (["home", "user", "project", "aws-rdsportal-frontend"] : List String).getLast?
        ≠ some ("aws-rdsportal-backend")
    ∧ ((∃ pre : String,
          (resolve (absPath ["home", "user", "project", "aws-rdsportal-frontend"])
              (absPath ["home", "user", "project", "aws-rdsportal-frontend"])).outputDirectory
            = pre ++ "/aws-rdsportal-backend/app/frontend")
        ∧ isUnder (absPath ["home", "user", "project", "aws-rdsportal-frontend"])
            ((resolve (absPath ["home", "user", "project", "aws-rdsportal-frontend"])
                (absPath ["home", "user", "project", "aws-rdsportal-frontend"])).outputDirectory)
          = false) :=
  ⟨by decide, by decide, by decide,
    c8_output_outside_frontend
      (absPath ["home", "user", "project", "aws-rdsportal-frontend"])
      ["home", "user", "project", "aws-rdsportal-frontend"]
      (by decide) (by decide) (by decide)⟩

/-- Witness for C7: two concrete working directories sharing the layout
`project/aws-rdsportal-frontend` under different absolute prefixes. -/
theorem c7_layout_preserving_witness :
    (["project", "aws-rdsportal-frontend"] : List String) ≠ []
    ∧ (∀ s ∈ (["home", "alice"] ++ ["project", "aws-rdsportal-frontend"] : List String), wfSegStr s)
    ∧ (∀ s ∈ (["srv", "deploy"] ++ ["project", "aws-rdsportal-frontend"] : List String), wfSegStr s)
    ∧ ∃ T : List String,
        (resolve (absPath (["home", "alice"] ++ ["project", "aws-rdsportal-frontend"]))
            (absPath (["home", "alice"] ++ ["project", "aws-rdsportal-frontend"]))).outputDirectory
          = absPath (["home", "alice"] ++ T)
        ∧ (resolve (absPath (["srv", "deploy"] ++ ["project", "aws-rdsportal-frontend"]))
            (absPath (["srv", "deploy"] ++ ["project", "aws-rdsportal-frontend"]))).outputDirectory
          = absPath (["srv", "deploy"] ++ T) :=
  ⟨by decide, by decide, by decide,
    c7_layout_preserving ["home", "alice"] ["srv", "deploy"]
      ["project", "aws-rdsportal-frontend"] (by decide) (by decide) (by decide)⟩
